import Mathlib

/-!
Verification of the Fedora Remix PXE server launcher (`run-pxe-server.py`).

The script's logic that the specification talks about is embedded shallowly:
Python strings become `List Char`, Python string methods become executable
Lean functions with the same observable behaviour (`str.replace` →
`pyReplace`, `str.split(sep)` → `splitOnChar`, `str.strip` → `pyStrip`,
`str.lower` → `pyLower` for the ASCII data the script feeds it, ...), the
filesystem probed by `find_usb_drives` becomes an explicit finite entry
table, and the container operations performed by `extract_boot_files`
become an explicit event trace.  Interactive `input()` prompts become
function parameters carrying the (already `.strip()`-ed) reply, and code
that would raise (`ip_parts[2]` on a short split) returns `Option`.
-/

set_option maxRecDepth 8192

namespace PxePy

/-- Characters of a Lean string literal, used to transcribe Python string
literals into the `List Char` representation used throughout. -/
def str (s : String) : List Char :=
  s.data

/-- Fuel-driven worker for `pyReplace`.  The fuel is consumed one unit per
emitted position, and `pyReplace` supplies `s.length`, which suffices
because every step consumes at least one input character. -/
def pyReplaceF (pat rep : List Char) : Nat → List Char → List Char
  | _, [] => []
  | 0, s => s
  | fuel + 1, c :: rest =>
    if pat ≠ [] ∧ pat <+: (c :: rest) then
      rep ++ pyReplaceF pat rep fuel ((c :: rest).drop pat.length)
    else
      c :: pyReplaceF pat rep fuel rest

/-- Python `s.replace(pat, rep)`: replace every non-overlapping occurrence
of `pat` in `s` by `rep`, scanning left to right. -/
def pyReplace (pat rep s : List Char) : List Char :=
  pyReplaceF pat rep s.length s

/-- Python `s.split(sep)` for a one-character separator: always returns at
least one (possibly empty) field. -/
def splitOnChar (sep : Char) : List Char → List (List Char)
  | [] => [[]]
  | c :: rest =>
    match splitOnChar sep rest with
    | [] => [[]]
    | h :: t => if c = sep then [] :: h :: t else (c :: h) :: t

/-- Python `s.split(sep, 1)` for a one-character separator, as the pair
(before first separator, after first separator).  The script only uses it
under an `sep in line` guard, so the no-separator case is immaterial. -/
def splitOnceChar (sep : Char) (s : List Char) : List Char × List Char :=
  (s.takeWhile (fun c => c ≠ sep), (s.dropWhile (fun c => c ≠ sep)).drop 1)

/-- Remove trailing characters satisfying `p` (the right half of Python
`strip`), implemented structurally to keep kernel reduction cheap. -/
def rdropWhileCh (p : Char → Bool) : List Char → List Char
  | [] => []
  | c :: rest =>
    let r := rdropWhileCh p rest
    if r = [] ∧ p c then [] else c :: r

/-- Python `s.strip()` (whitespace on both ends). -/
def pyStrip (s : List Char) : List Char :=
  rdropWhileCh Char.isWhitespace (s.dropWhile Char.isWhitespace)

/-- Python `s.strip(q)` for a one-character strip set. -/
def pyStripChar (q : Char) (s : List Char) : List Char :=
  rdropWhileCh (fun c => c = q) (s.dropWhile (fun c => c = q))

/-- Python `s.lower()` on the ASCII data the script lowercases (profile
names, env keys, paths); this is exactly core `Char.toLower` pointwise. -/
def pyLower (s : List Char) : List Char :=
  s.map Char.toLower

/-- Python `os.path.basename`: the part after the last `/`. -/
def pyBasename (s : List Char) : List Char :=
  (s.reverse.takeWhile (fun c => c ≠ '/')).reverse

end PxePy

namespace PxeServer

open PxePy

/-! ## Configuration constants (lines 24-30 of the script) -/

def CONTAINER_NAME : List Char := str "pxe-server"
def DEFAULT_PXE_IP : List Char := str "192.168.0.1"
def DEFAULT_NETMASK : List Char := str "255.255.255.0"

/-- The `config` dictionary assembled by `get_pxe_configuration`
(and persisted by `main`): all eight entries. -/
structure Config where
  interface : List Char
  server_ip : List Char
  subnet : List Char
  netmask : List Char
  range_start : List Char
  range_end : List Char
  router : List Char
  dns : List Char
deriving DecidableEq, Repr

/-- The server IP chosen at the prompt (line 233-238): the stripped reply
if non-empty, else the interface's IPv4 when it has one (`!= "--"`,
modelled as `Option`), else `DEFAULT_PXE_IP`. -/
def chosen_server_ip (iface_ip : Option (List Char)) (user_ip : List Char) : List Char :=
  if user_ip = [] then iface_ip.getD DEFAULT_PXE_IP else user_ip

/-- Embeds `get_pxe_configuration` (lines 218-253), with the interactive parts as
parameters.  Python indexes `ip_parts[0..2]` and raises `IndexError` when
the chosen IP splits into fewer than three fields; that is `none` here. -/
def get_pxe_configuration (iface_name : List Char) (iface_ip : Option (List Char))
    (user_ip : List Char) : Option Config :=
  match splitOnChar '.' (chosen_server_ip iface_ip user_ip) with
  | p0 :: p1 :: p2 :: _ =>
    some { interface := iface_name
           server_ip := chosen_server_ip iface_ip user_ip
           subnet := p0 ++ str "." ++ p1 ++ str "." ++ p2 ++ str ".0"
           netmask := DEFAULT_NETMASK
           range_start := p0 ++ str "." ++ p1 ++ str "." ++ p2 ++ str ".201"
           range_end := p0 ++ str "." ++ p1 ++ str "." ++ p2 ++ str ".240"
           router := chosen_server_ip iface_ip user_ip
           dns := chosen_server_ip iface_ip user_ip }
  | _ => none

/-- The first three dotted fields of an IP string, joined by dots (the
spec's "first three octets"). -/
def first_three_octets (ip : List Char) : List Char :=
  match splitOnChar '.' ip with
  | a :: b :: c :: _ => a ++ str "." ++ b ++ str "." ++ c
  | _ => []

/-- Numeric value of a digit string. -/
def digitsVal (s : List Char) : Nat :=
  s.foldl (fun n c => 10 * n + (c.toNat - 48)) 0

/-- A valid dotted-quad IPv4 string: exactly four dot-separated fields,
each a non-empty digit string with value at most 255. -/
def is_valid_ipv4 (ip : List Char) : Bool :=
  match splitOnChar '.' ip with
  | [a, b, c, d] =>
    [a, b, c, d].all (fun o => o ≠ [] && o.all Char.isDigit && digitsVal o ≤ 255)
  | _ => false

/-! ## `generate_dhcp_config` (lines 432-475)

The f-string template, with the interpolated `config[...]` fields spliced
in by concatenation.  Literal braces of the dhcpd syntax (written `{{`/`}}`
in the Python source) appear here as `\x7b`/`\x7d` escapes. -/

/-- The text written to `dhcpd.conf`. -/
def generate_dhcp_config (config : Config) : List Char :=
  str "# DHCP Configuration for PXE Boot Services\n# Generated by run-pxe-server\n\nddns-update-style none;\n\noption space pxelinux;\noption pxelinux.magic code 208 = string;\noption pxelinux.configfile code 209 = text;\noption pxelinux.pathprefix code 210 = text;\noption pxelinux.reboottime code 211 = unsigned integer 32;\noption architecture-type code 93 = unsigned integer 16;\n\nsubnet "
    ++ config.subnet
    ++ str " netmask "
    ++ config.netmask
    ++ str " \x7b\n\n    # PXE Boot clients\n    class \"pxeclients\" \x7b\n        match if substring(option vendor-class-identifier, 0, 9) = \"PXEClient\";\n        next-server "
    ++ config.server_ip
    ++ str ";\n        \n        if option architecture-type = 00:07 \x7b\n            filename \"BOOTX64.EFI\";\n        \x7d else \x7b\n            filename \"pxelinux.0\";\n        \x7d\n    \x7d\n\n    option routers "
    ++ config.router
    ++ str ";\n    option subnet-mask "
    ++ config.netmask
    ++ str ";\n    option domain-name-servers "
    ++ config.dns
    ++ str ";\n    default-lease-time 600;\n    max-lease-time 7200;\n\n    pool \x7b\n        allow members of \"pxeclients\";\n        range "
    ++ config.range_start
    ++ str " "
    ++ config.range_end
    ++ str ";\n    \x7d\n\x7d\n"

/-! ## Persisted configuration (`main`, lines 812-823 and 739-755) -/

/-- One `KEY="value"` line of `pxe-server.env`. -/
def env_line (key v : List Char) : List Char :=
  key ++ str "=\"" ++ v ++ str "\""

/-- The `env_content` f-string written by `main` (lines 813-822): a comment
header and the eight fields, one line each, each line terminated by a
newline. -/
def env_content (cfg : Config) : List Char :=
  str "# PXE Server Configuration" ++ '\n' ::
  (env_line (str "PXE_INTERFACE") cfg.interface ++ '\n' ::
  (env_line (str "PXE_SERVER_IP") cfg.server_ip ++ '\n' ::
  (env_line (str "PXE_SUBNET") cfg.subnet ++ '\n' ::
  (env_line (str "PXE_NETMASK") cfg.netmask ++ '\n' ::
  (env_line (str "PXE_ROUTER") cfg.router ++ '\n' ::
  (env_line (str "PXE_DNS") cfg.dns ++ '\n' ::
  (env_line (str "PXE_RANGE_START") cfg.range_start ++ '\n' ::
  (env_line (str "PXE_RANGE_END") cfg.range_end ++ ['\n']))))))))

/-- What `--status` reconstructs from the env file (lines 749-755): only
these four keys are mapped back, each defaulting to `"unknown"`. -/
structure StatusConfig where
  interface : List Char
  server_ip : List Char
  range_start : List Char
  range_end : List Char
deriving DecidableEq, Repr

/-- The body of the parsing loop (lines 743-747): a line is consumed when
it contains `=` and does not start with `#`; the key is stripped, has
every `PXE_` removed and is lowercased; the value is stripped of
whitespace and then of double quotes.  The dictionary is modelled as an
association list where the most recent binding is in front. -/
def parse_env_line (acc : List (List Char × List Char)) (line : List Char) :
    List (List Char × List Char) :=
  if '=' ∈ line ∧ ¬ ['#'] <+: line then
    let kv := splitOnceChar '=' line
    (pyLower (pyReplace (str "PXE_") [] (pyStrip kv.1)), pyStripChar '"' (pyStrip kv.2)) :: acc
  else acc

/-- Python `dict.get key dflt` over the association list built by
`parse_env_line` (front binding wins, i.e. the last assignment). -/
def dict_get (d : List (List Char × List Char)) (k dflt : List Char) : List Char :=
  match d with
  | [] => dflt
  | (k', v) :: rest => if k' = k then v else dict_get rest k dflt

/-- Embeds the `--status` loading (lines 740-755): `read_text().strip().split('\n')`,
the parsing loop, then the explicit four-key remap. -/
def load_config (content : List Char) : StatusConfig :=
  let d := (splitOnChar '\n' (pyStrip content)).foldl parse_env_line []
  { interface := dict_get d (str "interface") (str "unknown")
    server_ip := dict_get d (str "server_ip") (str "unknown")
    range_start := dict_get d (str "range_start") (str "unknown")
    range_end := dict_get d (str "range_end") (str "unknown") }

/-- A field value survives the env file syntax unchanged: no embedded
newline, no leading/trailing whitespace, no leading/trailing quote. -/
def env_value_ok (v : List Char) : Prop :=
  '\n' ∉ v ∧ pyStrip v = v ∧ pyStripChar '"' v = v

instance (v : List Char) : Decidable (env_value_ok v) := by
  unfold env_value_ok; infer_instance

/-! ## Boot profile (`get_profile_config`, lines 398-429) -/

/-- Membership in the regex class `[a-zA-Z0-9_]` (the user-input
sanitizer's keep-set, line 417). -/
def isProfileChar (c : Char) : Bool :=
  decide ('a' ≤ c ∧ c ≤ 'z') || decide ('A' ≤ c ∧ c ≤ 'Z') ||
    decide ('0' ≤ c ∧ c ≤ '9') || decide (c = '_')

/-- Membership in the regex class `[a-zA-Z0-9]` (the default-profile
sanitizer's keep-set, line 403). -/
def isAlnumChar (c : Char) : Bool :=
  decide ('a' ≤ c ∧ c ≤ 'z') || decide ('A' ≤ c ∧ c ≤ 'Z') ||
    decide ('0' ≤ c ∧ c ≤ '9')

/-- Embeds `re.sub(r'[^a-zA-Z0-9_]', '_', s)` (line 417). -/
def sanitize (s : List Char) : List Char :=
  s.map (fun c => if isProfileChar c then c else '_')

/-- Embeds `re.sub(r'[^a-zA-Z0-9]', '_', source['label'])[:20].lower()`
(line 403). -/
def default_profile (label : List Char) : List Char :=
  pyLower ((label.map (fun c => if isAlnumChar c then c else '_')).take 20)

/-- The profile name computed by `get_profile_config` (lines 403-417):
the stripped user reply, or the default when empty, then the final
`re.sub(r'[^a-zA-Z0-9_]', '_', ...)`. -/
def get_profile_name (source_label user_reply : List Char) : List Char :=
  let profile := if user_reply = [] then default_profile source_label else user_reply
  sanitize profile

/-! ## ISO source selection (`select_iso_source`, lines 371-395) -/

/-- Embeds `os.path.basename(path).replace('.iso', '').replace('.ISO', '')`
(line 394): the label attached to an accepted ISO path. -/
def select_iso_label (path : List Char) : List Char :=
  pyReplace (str ".ISO") [] (pyReplace (str ".iso") [] (pyBasename path))

/-- Embeds `not path.lower().endswith('.iso')` (line 388): whether the soft
warning and explicit confirmation are required. -/
def iso_needs_confirmation (path : List Char) : Bool :=
  ! decide (str ".iso" <:+ pyLower path)

/-! ## Interface discovery (`get_network_interfaces`, lines 136-178) -/

/-- The prefixes skipped by interface discovery (lines 152-153). -/
def skip_prefixes : List (List Char) :=
  [str "lo", str "veth", str "br-", str "docker", str "virbr", str "podman",
   str "wlan", str "wlp", str "wlx", str "tun", str "tap"]

/-- Embeds `parts[1].split('@')[0]` (line 149): the interface name before any
VLAN `@` suffix. -/
def vlan_base (name : List Char) : List Char :=
  name.takeWhile (fun c => c ≠ '@')

/-- Whether line 154 skips the name: some skip prefix starts it. -/
def is_skipped (iface : List Char) : Bool :=
  skip_prefixes.any (fun p => p.isPrefixOf iface)

/-- The interface names accepted by the parsing loop of
`get_network_interfaces`, given the name fields of the link listing in
order (the per-interface state/MAC/IP probes do not affect selection). -/
def get_network_interface_names : List (List Char) → List (List Char)
  | [] => []
  | n :: rest =>
    let iface := vlan_base n
    if is_skipped iface then get_network_interface_names rest
    else iface :: get_network_interface_names rest

/-! ## USB discovery (`find_usb_drives`, lines 256-291)

The filesystem that `Path.exists`/`Path.is_dir`/`Path.iterdir`/`stat`
probe is modelled as a finite table of entries.  A path is the list of its
components from the root (`/run/media/root` = `["run","media","root"]`);
`iterdir` enumerates the entries one component longer than the queried
path, in table order. -/

/-- One filesystem object: its absolute path, whether it is a directory,
and its `st_size` (meaningful for files). -/
structure FSEntry where
  path : List (List Char)
  isDir : Bool
  size : Nat
deriving DecidableEq, Repr

/-- A finite filesystem. -/
structure FS where
  entries : List FSEntry
deriving DecidableEq, Repr

/-- Embeds `Path.exists()`. -/
def fsExists (fs : FS) (p : List (List Char)) : Bool :=
  fs.entries.any (fun e => decide (e.path = p))

/-- Embeds `Path.is_dir()`. -/
def fsIsDir (fs : FS) (p : List (List Char)) : Bool :=
  fs.entries.any (fun e => decide (e.path = p) && e.isDir)

/-- Embeds `Path.iterdir()`: the listed paths directly below `p`, in table
order. -/
def childPaths (fs : FS) (p : List (List Char)) : List (List (List Char)) :=
  fs.entries.filterMap (fun e =>
    if e.path.take p.length = p ∧ e.path.length = p.length + 1 then some e.path else none)

/-- Embeds `stat().st_size` of a listed path (`0` if absent; `find_usb_drives`
only stats paths it has just seen exist). -/
def fileSize (fs : FS) (p : List (List Char)) : Nat :=
  ((fs.entries.find? (fun e => decide (e.path = p))).map FSEntry.size).getD 0

/-- Embeds `Path(...).name`: the last component. -/
def pathName (p : List (List Char)) : List Char :=
  p.getLast?.getD []

/-- The marker file `<mount>/LiveOS/squashfs.img` (line 282). -/
def squashfs_marker (mount : List (List Char)) : List (List Char) :=
  mount ++ [str "LiveOS", str "squashfs.img"]

/-- The fixed mount roots scanned (lines 261-265). -/
def mount_locations : List (List (List Char)) :=
  [[str "run", str "media"], [str "media"], [str "mnt"]]

/-- The entry recorded for a hit (lines 285-289); the displayed GiB
rendering of the size is kept as the raw byte count. -/
structure UsbDrive where
  path : List (List Char)
  label : List Char
  sizeBytes : Nat
deriving DecidableEq, Repr

/-- Embeds `find_usb_drives` (lines 256-291): for each existing mount root,
walk its entries; each first-level directory is itself a candidate, and —
unless it is named `root` — so is everything it lists; a candidate
directory is a hit when its `LiveOS/squashfs.img` marker exists. -/
def find_usb_drives (fs : FS) : List UsbDrive :=
  mount_locations.flatMap (fun base =>
    if fsExists fs base then
      (childPaths fs base).flatMap (fun user_dir =>
        if fsIsDir fs user_dir then
          let search_dirs := user_dir ::
            (if pathName user_dir ≠ str "root" then
              (if fsIsDir fs user_dir then childPaths fs user_dir else [])
             else [])
          search_dirs.filterMap (fun mount =>
            if fsIsDir fs mount then
              if fsExists fs (squashfs_marker mount) then
                some { path := mount
                       label := pathName mount
                       sizeBytes := fileSize fs (squashfs_marker mount) }
              else none
            else none)
        else [])
    else [])

/-- Well-formed filesystem table: every strict non-empty prefix of a
listed path is itself listed, as a directory (true of any real
filesystem). -/
def fsWF (fs : FS) : Prop :=
  ∀ e ∈ fs.entries, ∀ k : Nat, k < e.path.length → 0 < k → fsIsDir fs (e.path.take k) = true

instance (fs : FS) : Decidable (fsWF fs) := by
  unfold fsWF; infer_instance

/-! ## Extraction orchestration (`extract_boot_files`, lines 550-623)

The container-engine side effects become an explicit event trace; the two
external outcomes the code branches on (`podman run` exit status,
extraction script exit status) are oracle parameters. -/

/-- The profile dictionary built by `get_profile_config` plus the source
it wraps (`source['type']` is `"iso"` or `"usb"`, `source['path']` the
host path). -/
structure ProfileConfig where
  profile : List Char
  label : List Char
  source_type : List Char
  source_path : List Char
deriving DecidableEq, Repr

/-- A container-engine action performed by `extract_boot_files`, in
order.  A mount is (host path, container path, option string). -/
inductive PodmanEvent where
  | stop (container : List Char)
  | rm (container : List Char)
  | runDetached (container : List Char) (privileged : Bool)
      (mounts : List (List Char × List Char × List Char))
  | sleepSecs (n : Nat)
  | execScript (container : List Char) (script : List Char) (args : List (List Char))
deriving DecidableEq, Repr

/-- The fixed in-container mount point for the source (line 565). -/
def source_mount : List Char := str "/mnt/source"

/-- The in-container extraction entrypoint (line 570). -/
def extract_entrypoint : List Char := str "/usr/local/bin/extract-boot-files.sh"

/-- The volume list of the extraction-template `podman run`
(lines 597-600): the serving mounts plus the read-only source mount. -/
def extraction_mounts (data_dir config_dir source_path : List Char) :
    List (List Char × List Char × List Char) :=
  [(data_dir ++ str "/tftpboot", str "/var/lib/tftpboot", str "Z"),
   (data_dir ++ str "/http", str "/var/www/html", str "Z"),
   (config_dir ++ str "/dhcpd.conf", str "/etc/dhcp/dhcpd.conf", str "Z"),
   (source_path, source_mount, str "ro")]

/-- Embeds `extract_boot_files` (lines 550-623) as (event trace, returned
success flag).  `start_ok` is whether the extraction-template `podman run`
exits 0, `extract_ok` whether the in-container extraction script does;
every failure path returns `false` instead of raising. -/
def extract_boot_files (profile_config : Option ProfileConfig)
    (config : Config) (data_dir config_dir : List Char)
    (start_ok extract_ok : Bool) : List PodmanEvent × Bool :=
  match profile_config with
  | none => ([], true)
  | some pc =>
    let extract_args :=
      [source_mount, pc.profile, config.server_ip, pc.label, pc.source_type]
    let pre : List PodmanEvent :=
      [.stop CONTAINER_NAME, .rm CONTAINER_NAME,
       .runDetached CONTAINER_NAME true
         (extraction_mounts data_dir config_dir pc.source_path)]
    if start_ok then
      (pre ++ [.sleepSecs 2, .execScript CONTAINER_NAME extract_entrypoint extract_args],
       extract_ok)
    else
      (pre, false)

/-- Whether an event is an invocation of the in-container extraction
entrypoint. -/
def isExtractExec : PodmanEvent → Bool
  | .execScript _ script _ => script = extract_entrypoint
  | _ => false

/-- The literal template pieces of `generate_dhcp_config`, named so the
interpolation positions can be manipulated in proofs.  `dhcpT0` …
`dhcpT8` are exactly the nine literal chunks of the f-string, in order. -/
def dhcpT0 : List Char := str "# DHCP Configuration for PXE Boot Services\n# Generated by run-pxe-server\n\nddns-update-style none;\n\noption space pxelinux;\noption pxelinux.magic code 208 = string;\noption pxelinux.configfile code 209 = text;\noption pxelinux.pathprefix code 210 = text;\noption pxelinux.reboottime code 211 = unsigned integer 32;\noption architecture-type code 93 = unsigned integer 16;\n\nsubnet "

def dhcpT1 : List Char := str " netmask "

def dhcpT2 : List Char := str " \x7b\n\n    # PXE Boot clients\n    class \"pxeclients\" \x7b\n        match if substring(option vendor-class-identifier, 0, 9) = \"PXEClient\";\n        next-server "

def dhcpT3 : List Char := str ";\n        \n        if option architecture-type = 00:07 \x7b\n            filename \"BOOTX64.EFI\";\n        \x7d else \x7b\n            filename \"pxelinux.0\";\n        \x7d\n    \x7d\n\n    "

def dhcpT4 : List Char := str "\n    option subnet-mask "

def dhcpT5 : List Char := str "\n    "

def dhcpT6 : List Char := str "\n    default-lease-time 600;\n    max-lease-time 7200;\n\n    pool \x7b\n        allow members of \"pxeclients\";\n        range "

def dhcpT7 : List Char := str " "

def dhcpT8 : List Char := str ";\n    \x7d\n\x7d\n"


/-- Lines joined with a newline after each (the shape of
`env_content`). -/
def joinNl : List (List Char) → List Char
  | [] => []
  | l :: rest => l ++ '\n' :: joinNl rest

/-- Lines joined with newline separators and no trailing newline (the
shape after `strip`). -/
def joinNl1 : List (List Char) → List Char
  | [] => []
  | [l] => l
  | l :: rest => l ++ '\n' :: joinNl1 rest


/-- A sample filesystem: a USB stick mounted directly under `/run/media`
and another below a per-user directory. -/
def fsSample : FS :=
  { entries :=
      [⟨[str "run"], true, 0⟩,
       ⟨[str "run", str "media"], true, 0⟩,
       ⟨[str "run", str "media", str "liveusb"], true, 0⟩,
       ⟨[str "run", str "media", str "liveusb", str "LiveOS"], true, 0⟩,
       ⟨[str "run", str "media", str "liveusb", str "LiveOS", str "squashfs.img"],
         false, 2048⟩,
       ⟨[str "run", str "media", str "bob"], true, 0⟩,
       ⟨[str "run", str "media", str "bob", str "usb1"], true, 0⟩,
       ⟨[str "run", str "media", str "bob", str "usb1", str "LiveOS"], true, 0⟩,
       ⟨[str "run", str "media", str "bob", str "usb1", str "LiveOS",
          str "squashfs.img"], false, 4096⟩] }

/-- A filesystem whose only marker sits below `/run/media/root/usb2`. -/
def fsRootShadow : FS :=
  { entries :=
      [⟨[str "run"], true, 0⟩,
       ⟨[str "run", str "media"], true, 0⟩,
       ⟨[str "run", str "media", str "root"], true, 0⟩,
       ⟨[str "run", str "media", str "root", str "usb2"], true, 0⟩,
       ⟨[str "run", str "media", str "root", str "usb2", str "LiveOS"], true, 0⟩,
       ⟨[str "run", str "media", str "root", str "usb2", str "LiveOS",
          str "squashfs.img"], false, 1024⟩] }

/-- A filesystem where `/run/media/root` is itself the live medium. -/
def fsRootMount : FS :=
  { entries :=
      [⟨[str "run"], true, 0⟩,
       ⟨[str "run", str "media"], true, 0⟩,
       ⟨[str "run", str "media", str "root"], true, 0⟩,
       ⟨[str "run", str "media", str "root", str "LiveOS"], true, 0⟩,
       ⟨[str "run", str "media", str "root", str "LiveOS", str "squashfs.img"],
         false, 512⟩] }


/-! ## Supporting lemmas -/

theorem char_le_iff_toNat (a b : Char) : a ≤ b ↔ a.toNat ≤ b.toNat :=
  Iff.intro (fun h => h) (fun h => h)

theorem char_toNat_inj {a b : Char} (h : a.toNat = b.toNat) : a = b := by
  apply Char.eq_of_val_eq
  apply UInt32.eq_of_toBitVec_eq
  exact BitVec.eq_of_toNat_eq h

theorem toNat_ofNat_valid (n : Nat) (h : n.isValidChar) : (Char.ofNat n).toNat = n := by
  simp [Char.ofNat, h, Char.ofNatAux, Char.toNat, UInt32.toNat, BitVec.toNat_ofNatLt]

theorem toLower_eq (c : Char) :
    Char.toLower c = if c.toNat ≥ 65 ∧ c.toNat ≤ 90 then Char.ofNat (c.toNat + 32) else c := rfl

/-- Python `str.lower` never produces a basic latin capital. -/
theorem toLower_not_upper (c : Char) : ¬ ('A' ≤ Char.toLower c ∧ Char.toLower c ≤ 'Z') := by
  rw [char_le_iff_toNat, char_le_iff_toNat, toLower_eq]
  have h1 : ('A').toNat = 65 := rfl
  have h2 : ('Z').toNat = 90 := rfl
  by_cases h : c.toNat ≥ 65 ∧ c.toNat ≤ 90
  · rw [if_pos h, toNat_ofNat_valid (c.toNat + 32) (Or.inl (by omega))]
    rw [h1, h2]
    omega
  · rw [if_neg h, h1, h2]
    omega

theorem isProfileChar_iff (c : Char) : isProfileChar c = true ↔
    (97 ≤ c.toNat ∧ c.toNat ≤ 122) ∨ (65 ≤ c.toNat ∧ c.toNat ≤ 90) ∨
    (48 ≤ c.toNat ∧ c.toNat ≤ 57) ∨ c.toNat = 95 := by
  have h95 : c = '_' ↔ c.toNat = 95 :=
    Iff.intro (fun h => by rw [h]; rfl) (fun h => char_toNat_inj h)
  simp only [isProfileChar, Bool.or_eq_true, decide_eq_true_eq, char_le_iff_toNat, h95]
  have ha : ('a').toNat = 97 := rfl
  have hz : ('z').toNat = 122 := rfl
  have hA : ('A').toNat = 65 := rfl
  have hZ : ('Z').toNat = 90 := rfl
  have h0 : ('0').toNat = 48 := rfl
  have h9 : ('9').toNat = 57 := rfl
  rw [ha, hz, hA, hZ, h0, h9]
  tauto

theorem isAlnumChar_iff (c : Char) : isAlnumChar c = true ↔
    (97 ≤ c.toNat ∧ c.toNat ≤ 122) ∨ (65 ≤ c.toNat ∧ c.toNat ≤ 90) ∨
    (48 ≤ c.toNat ∧ c.toNat ≤ 57) := by
  simp only [isAlnumChar, Bool.or_eq_true, decide_eq_true_eq, char_le_iff_toNat]
  have ha : ('a').toNat = 97 := rfl
  have hz : ('z').toNat = 122 := rfl
  have hA : ('A').toNat = 65 := rfl
  have hZ : ('Z').toNat = 90 := rfl
  have h0 : ('0').toNat = 48 := rfl
  have h9 : ('9').toNat = 57 := rfl
  rw [ha, hz, hA, hZ, h0, h9]
  tauto

/-- Lowercasing keeps a character inside `[a-zA-Z0-9_]`. -/
theorem isProfileChar_toLower {c : Char} (h : isProfileChar c = true) :
    isProfileChar (Char.toLower c) = true := by
  rw [isProfileChar_iff] at h ⊢
  rw [toLower_eq]
  by_cases hc : c.toNat ≥ 65 ∧ c.toNat ≤ 90
  · rw [if_pos hc, toNat_ofNat_valid (c.toNat + 32) (Or.inl (by omega))]
    omega
  · rw [if_neg hc]
    omega

/-- Every character of a sanitized string is in `[a-zA-Z0-9_]`. -/
theorem sanitize_mem {s : List Char} {c : Char} (h : c ∈ sanitize s) :
    isProfileChar c = true := by
  simp only [sanitize, List.mem_map] at h
  obtain ⟨a, _, ha⟩ := h
  by_cases hp : isProfileChar a = true
  · rw [← ha, if_pos hp]; exact hp
  · rw [← ha, if_neg hp]; rfl

/-- The sanitizer leaves an already-clean string unchanged. -/
theorem sanitize_of_clean {s : List Char} (h : ∀ c ∈ s, isProfileChar c = true) :
    sanitize s = s := by
  induction s with
  | nil => rfl
  | cons a rest ih =>
    have ha : isProfileChar a = true := h a (List.mem_cons_self a rest)
    simp only [sanitize, List.map_cons, if_pos ha]
    have := ih (fun c hc => h c (List.mem_cons_of_mem a hc))
    simp only [sanitize] at this
    rw [this]

/-- Characters of a defaulted profile name are in `[a-zA-Z0-9_]` and are
never capitals. -/
theorem default_profile_mem {label : List Char} {c : Char}
    (h : c ∈ default_profile label) :
    isProfileChar c = true ∧ ¬ ('A' ≤ c ∧ c ≤ 'Z') := by
  simp only [default_profile, pyLower, List.mem_map] at h
  obtain ⟨d, hd, hdc⟩ := h
  have hd' : isProfileChar d = true := by
    have hd2 := List.mem_of_mem_take hd
    simp only [List.mem_map] at hd2
    obtain ⟨a, _, ha⟩ := hd2
    by_cases hp : isAlnumChar a = true
    · rw [← ha, if_pos hp]
      rw [isProfileChar_iff]
      rw [isAlnumChar_iff] at hp
      omega
    · rw [← ha, if_neg hp]; rfl
  subst hdc
  exact ⟨isProfileChar_toLower hd', toLower_not_upper d⟩

theorem default_profile_length (label : List Char) :
    (default_profile label).length ≤ 20 := by
  simp only [default_profile, pyLower, List.length_map]
  exact List.length_take_le 20 _

/-! ## Claim C7 -/

/-- Claim C7: the profile-name sanitizer is idempotent, its output always
matches `[A-Za-z0-9_]*`, and when truncation to 20 characters is applied
before sanitizing the output length stays at most 20. -/
theorem c7_sanitize_algebra (s : List Char) :
    sanitize (sanitize s) = sanitize s ∧
    (∀ c ∈ sanitize s, isProfileChar c = true) ∧
    (sanitize (s.take 20)).length ≤ 20 := by
  refine ⟨sanitize_of_clean (fun c hc => sanitize_mem hc), fun c hc => sanitize_mem hc, ?_⟩
  simp only [sanitize, List.length_map]
  exact List.length_take_le 20 _

/-- Claim C7 witness: the sanitizer algebra at a concrete input. -/
theorem c7_witness :
    sanitize (sanitize (str "My CD! 2024")) = sanitize (str "My CD! 2024") ∧
    (∀ c ∈ sanitize (str "My CD! 2024"), isProfileChar c = true) ∧
    (sanitize ((str "My CD! 2024").take 20)).length ≤ 20 :=
  c7_sanitize_algebra (str "My CD! 2024")

/-! ## Claim C3 -/

/-- Claim C3 counterexample: a user-supplied profile name passes through
`get_profile_config` without being lowercased or truncated, so the
resulting profile name violates "entirely lowercase and at most 20
characters" (here: 25 characters containing capitals). -/
theorem c3_counterexample :
    ¬ (((get_profile_name (str "Fedora") (str "MY_UPPERCASE_PROFILE_NAME")).length ≤ 20) ∧
       ∀ c ∈ get_profile_name (str "Fedora") (str "MY_UPPERCASE_PROFILE_NAME"),
         ¬ ('A' ≤ c ∧ c ≤ 'Z')) := by
  decide

/-- Claim C3 amended: every profile name produced by `get_profile_config`
consists only of characters in `[A-Za-z0-9_]`; when the name is defaulted
from the source label (empty user reply) it is additionally entirely
lowercase and at most 20 characters long, but a non-empty user reply keeps
its case and length. -/
theorem c3_profile_name_amended (label reply : List Char) :
    (∀ c ∈ get_profile_name label reply, isProfileChar c = true) ∧
    (reply = [] →
      (get_profile_name label reply).length ≤ 20 ∧
      ∀ c ∈ get_profile_name label reply, ¬ ('A' ≤ c ∧ c ≤ 'Z')) := by
  constructor
  · intro c hc
    by_cases hr : reply = []
    · simp only [get_profile_name, if_pos hr] at hc
      exact sanitize_mem hc
    · simp only [get_profile_name, if_neg hr] at hc
      exact sanitize_mem hc
  · intro hr
    have hclean : sanitize (default_profile label) = default_profile label :=
      sanitize_of_clean (fun c hc => (default_profile_mem hc).1)
    simp only [get_profile_name, if_pos hr, hclean]
    exact ⟨default_profile_length label, fun c hc => (default_profile_mem hc).2⟩

/-- Claim C3 witness: the amended statement applied to the defaulted case
of a concrete source label. -/
theorem c3_witness :
    (∀ c ∈ get_profile_name (str "My Live-CD 2024 Gold Edition") [],
       isProfileChar c = true) ∧
    (get_profile_name (str "My Live-CD 2024 Gold Edition") []).length ≤ 20 ∧
    (∀ c ∈ get_profile_name (str "My Live-CD 2024 Gold Edition") [],
       ¬ ('A' ≤ c ∧ c ≤ 'Z')) := by
  have h := c3_profile_name_amended (str "My Live-CD 2024 Gold Edition") []
  exact ⟨h.1, (h.2 rfl).1, (h.2 rfl).2⟩

/-! ## Claim C8 -/

/-- Claim C8: interface discovery keeps exactly the names (taken before
any `@` suffix) that do not begin with one of the skip prefixes, in
listing order. -/
theorem c8_interface_filtering (names : List (List Char)) :
    get_network_interface_names names
        = (names.map vlan_base).filter (fun i => ! is_skipped i) ∧
    ∀ i, i ∈ get_network_interface_names names ↔
        ((∃ n ∈ names, vlan_base n = i) ∧ is_skipped i = false) := by
  have heq : get_network_interface_names names
      = (names.map vlan_base).filter (fun i => ! is_skipped i) := by
    induction names with
    | nil => rfl
    | cons n rest ih =>
      simp only [get_network_interface_names, List.map_cons, List.filter_cons]
      cases hs : is_skipped (vlan_base n) with
      | true => simp [hs, ih]
      | false => simp [hs, ih]
  refine ⟨heq, fun i => ?_⟩
  rw [heq]
  simp only [List.mem_filter, List.mem_map, Bool.not_eq_true']

/-- Claim C8 witness: the filtering equation evaluated on a synthetic
link listing. -/
theorem c8_witness :
    get_network_interface_names
        [str "lo", str "eth0", str "wlp3s0", str "enp5s0@if2", str "veth12",
         str "tap0", str "eno1"]
      = [str "eth0", str "enp5s0", str "eno1"] ∧
    (str "enp5s0" ∈ get_network_interface_names
        [str "lo", str "eth0", str "wlp3s0", str "enp5s0@if2", str "veth12",
         str "tap0", str "eno1"] ↔
      ((∃ n ∈ [str "lo", str "eth0", str "wlp3s0", str "enp5s0@if2", str "veth12",
               str "tap0", str "eno1"], vlan_base n = str "enp5s0") ∧
       is_skipped (str "enp5s0") = false)) := by
  have h := c8_interface_filtering
    [str "lo", str "eth0", str "wlp3s0", str "enp5s0@if2", str "veth12",
     str "tap0", str "eno1"]
  refine ⟨?_, h.2 (str "enp5s0")⟩
  rw [h.1]
  decide

/-! ## Claim C1 -/

/-- A valid IPv4 string splits into exactly four dot fields. -/
theorem valid_ipv4_shape {ip : List Char} (h : is_valid_ipv4 ip = true) :
    ∃ a b c d, splitOnChar '.' ip = [a, b, c, d] := by
  unfold is_valid_ipv4 at h
  split at h
  · next a b c d heq => exact ⟨a, b, c, d, heq⟩
  · exact absurd h (by simp)

/-- Claim C1: for a valid dotted-quad server IP, the derived configuration
has `subnet`, `range_start`, `range_end` built from the IP's first three
octets with host parts `.0`, `.201`, `.240`, and `netmask`
`255.255.255.0`. -/
theorem c1_derive_network_config (iface_name : List Char)
    (iface_ip : Option (List Char)) (user_ip : List Char)
    (h : is_valid_ipv4 (chosen_server_ip iface_ip user_ip) = true) :
    ∃ cfg, get_pxe_configuration iface_name iface_ip user_ip = some cfg ∧
      cfg.server_ip = chosen_server_ip iface_ip user_ip ∧
      cfg.subnet = first_three_octets cfg.server_ip ++ str ".0" ∧
      cfg.range_start = first_three_octets cfg.server_ip ++ str ".201" ∧
      cfg.range_end = first_three_octets cfg.server_ip ++ str ".240" ∧
      cfg.netmask = str "255.255.255.0" := by
  obtain ⟨a, b, c, d, heq⟩ := valid_ipv4_shape h
  refine ⟨{ interface := iface_name
            server_ip := chosen_server_ip iface_ip user_ip
            subnet := a ++ str "." ++ b ++ str "." ++ c ++ str ".0"
            netmask := DEFAULT_NETMASK
            range_start := a ++ str "." ++ b ++ str "." ++ c ++ str ".201"
            range_end := a ++ str "." ++ b ++ str "." ++ c ++ str ".240"
            router := chosen_server_ip iface_ip user_ip
            dns := chosen_server_ip iface_ip user_ip }, ?_, rfl, ?_, ?_, ?_, rfl⟩ <;>
    simp [get_pxe_configuration, first_three_octets, heq, List.append_assoc]

/-- Claim C1 witness: the spec's scenario `10.0.5.9` →
`10.0.5.0` / `10.0.5.201` / `10.0.5.240` / `255.255.255.0`. -/
theorem c1_witness :
    is_valid_ipv4 (chosen_server_ip none (str "10.0.5.9")) = true ∧
    ∃ cfg, get_pxe_configuration (str "eth0") none (str "10.0.5.9") = some cfg ∧
      cfg.server_ip = chosen_server_ip none (str "10.0.5.9") ∧
      cfg.subnet = first_three_octets cfg.server_ip ++ str ".0" ∧
      cfg.range_start = first_three_octets cfg.server_ip ++ str ".201" ∧
      cfg.range_end = first_three_octets cfg.server_ip ++ str ".240" ∧
      cfg.netmask = str "255.255.255.0" :=
  ⟨by decide, c1_derive_network_config (str "eth0") none (str "10.0.5.9") (by decide)⟩

/-! ## Claim C9 -/

/-- Restates `generate_dhcp_config` in terms of the named chunks. -/
theorem generate_dhcp_config_chunks (cfg : Config) :
    generate_dhcp_config cfg =
      dhcpT0 ++ cfg.subnet ++ dhcpT1 ++ cfg.netmask ++ dhcpT2 ++ cfg.server_ip
        ++ dhcpT3 ++ str "option routers " ++ cfg.router ++ str ";" ++ dhcpT4
        ++ cfg.netmask ++ str ";" ++ dhcpT5 ++ str "option domain-name-servers "
        ++ cfg.dns ++ str ";" ++ dhcpT6 ++ cfg.range_start ++ dhcpT7
        ++ cfg.range_end ++ dhcpT8 := by
  unfold generate_dhcp_config dhcpT0 dhcpT1 dhcpT2 dhcpT3 dhcpT4 dhcpT5 dhcpT6 dhcpT7 dhcpT8
  have h3 : str ";\n        \n        if option architecture-type = 00:07 \x7b\n            filename \"BOOTX64.EFI\";\n        \x7d else \x7b\n            filename \"pxelinux.0\";\n        \x7d\n    \x7d\n\n    option routers "
      = str ";\n        \n        if option architecture-type = 00:07 \x7b\n            filename \"BOOTX64.EFI\";\n        \x7d else \x7b\n            filename \"pxelinux.0\";\n        \x7d\n    \x7d\n\n    " ++ str "option routers " := by decide
  have h4 : str ";\n    option subnet-mask " = str ";" ++ str "\n    option subnet-mask " := by
    decide
  have h5 : str ";\n    option domain-name-servers "
      = str ";" ++ (str "\n    " ++ str "option domain-name-servers ") := by decide
  have h6 : str ";\n    default-lease-time 600;\n    max-lease-time 7200;\n\n    pool \x7b\n        allow members of \"pxeclients\";\n        range "
      = str ";" ++ str "\n    default-lease-time 600;\n    max-lease-time 7200;\n\n    pool \x7b\n        allow members of \"pxeclients\";\n        range " := by decide
  rw [h3, h4, h5, h6]
  simp [List.append_assoc]

/-- Claim C9: in every derived configuration `router` and `dns` equal
`server_ip`, and those values are interpolated into the generated
`dhcpd.conf` as the `option routers`/`option domain-name-servers`
values. -/
theorem c9_router_dns (iface_name : List Char) (iface_ip : Option (List Char))
    (user_ip : List Char) (cfg : Config)
    (h : get_pxe_configuration iface_name iface_ip user_ip = some cfg) :
    cfg.router = cfg.server_ip ∧ cfg.dns = cfg.server_ip ∧
    (∃ pre post, generate_dhcp_config cfg =
        pre ++ (str "option routers " ++ cfg.server_ip ++ str ";") ++ post) ∧
    (∃ pre post, generate_dhcp_config cfg =
        pre ++ (str "option domain-name-servers " ++ cfg.server_ip ++ str ";") ++ post) := by
  have hrouter : cfg.router = cfg.server_ip ∧ cfg.dns = cfg.server_ip := by
    unfold get_pxe_configuration at h
    split at h
    · cases h
      exact ⟨rfl, rfl⟩
    · cases h
  refine ⟨hrouter.1, hrouter.2, ?_, ?_⟩
  · refine ⟨dhcpT0 ++ cfg.subnet ++ dhcpT1 ++ cfg.netmask ++ dhcpT2 ++ cfg.server_ip ++ dhcpT3,
      dhcpT4 ++ cfg.netmask ++ str ";" ++ dhcpT5 ++ str "option domain-name-servers "
        ++ cfg.dns ++ str ";" ++ dhcpT6 ++ cfg.range_start ++ dhcpT7
        ++ cfg.range_end ++ dhcpT8, ?_⟩
    rw [generate_dhcp_config_chunks, ← hrouter.1]
    simp [List.append_assoc]
  · refine ⟨dhcpT0 ++ cfg.subnet ++ dhcpT1 ++ cfg.netmask ++ dhcpT2 ++ cfg.server_ip
        ++ dhcpT3 ++ str "option routers " ++ cfg.router ++ str ";" ++ dhcpT4
        ++ cfg.netmask ++ str ";" ++ dhcpT5,
      dhcpT6 ++ cfg.range_start ++ dhcpT7 ++ cfg.range_end ++ dhcpT8, ?_⟩
    rw [generate_dhcp_config_chunks, ← hrouter.2]
    simp [List.append_assoc]

/-- Claim C9 witness: the router/dns invariant and both interpolations at
a concrete derived configuration. -/
theorem c9_witness :
    ∃ cfg, get_pxe_configuration (str "eno1") (some (str "192.168.7.2")) [] = some cfg ∧
      cfg.router = cfg.server_ip ∧ cfg.dns = cfg.server_ip ∧
      (∃ pre post, generate_dhcp_config cfg =
          pre ++ (str "option routers " ++ cfg.server_ip ++ str ";") ++ post) ∧
      (∃ pre post, generate_dhcp_config cfg =
          pre ++ (str "option domain-name-servers " ++ cfg.server_ip ++ str ";") ++ post) := by
  have h : get_pxe_configuration (str "eno1") (some (str "192.168.7.2")) []
      = some { interface := str "eno1", server_ip := str "192.168.7.2",
               subnet := str "192.168.7.0", netmask := str "255.255.255.0",
               range_start := str "192.168.7.201", range_end := str "192.168.7.240",
               router := str "192.168.7.2", dns := str "192.168.7.2" } := by decide
  exact ⟨_, h, c9_router_dns (str "eno1") (some (str "192.168.7.2")) [] _ h⟩

/-! ## Claim C5 -/

/-- Claim C5: with a boot profile present, `extract_boot_files` always
first stops and removes the existing container and starts the privileged
extraction-template container with the source bind-mounted read-only at
`/mnt/source`; when that start succeeds the trace is exactly stop, rm,
run, the 2-second grace sleep, then the entrypoint invocation with
positional arguments `(mount, profile, server_ip, label, source kind)`;
when the start fails the function returns `false` and the entrypoint is
never invoked. -/
theorem c5_extraction_protocol (pc : ProfileConfig) (config : Config)
    (data_dir config_dir : List Char) (start_ok extract_ok : Bool) :
    (extract_boot_files (some pc) config data_dir config_dir start_ok extract_ok).1.take 3 =
        [.stop CONTAINER_NAME, .rm CONTAINER_NAME,
         .runDetached CONTAINER_NAME true
           (extraction_mounts data_dir config_dir pc.source_path)] ∧
    (pc.source_path, source_mount, str "ro") ∈
        extraction_mounts data_dir config_dir pc.source_path ∧
    (start_ok = false →
      (extract_boot_files (some pc) config data_dir config_dir start_ok extract_ok).2 = false ∧
      ∀ e ∈ (extract_boot_files (some pc) config data_dir config_dir start_ok extract_ok).1,
        isExtractExec e = false) ∧
    (start_ok = true →
      (extract_boot_files (some pc) config data_dir config_dir start_ok extract_ok).1 =
        [.stop CONTAINER_NAME, .rm CONTAINER_NAME,
         .runDetached CONTAINER_NAME true
           (extraction_mounts data_dir config_dir pc.source_path),
         .sleepSecs 2,
         .execScript CONTAINER_NAME extract_entrypoint
           [source_mount, pc.profile, config.server_ip, pc.label, pc.source_type]]) := by
  cases start_ok with
  | false =>
    refine ⟨rfl, ?_, ?_, ?_⟩
    · simp [extraction_mounts]
    · intro _
      refine ⟨rfl, ?_⟩
      intro e he
      have he' : e ∈ [PodmanEvent.stop CONTAINER_NAME, PodmanEvent.rm CONTAINER_NAME,
          PodmanEvent.runDetached CONTAINER_NAME true
            (extraction_mounts data_dir config_dir pc.source_path)] := he
      simp only [List.mem_cons, List.not_mem_nil, or_false] at he'
      rcases he' with h | h | h <;> subst h <;> rfl
    · intro h
      cases h
  | true =>
    refine ⟨rfl, ?_, ?_, fun _ => rfl⟩
    · simp [extraction_mounts]
    · intro h
      cases h

/-- Claim C5 witness: the protocol at a concrete profile and
configuration, in the start-failure case. -/
theorem c5_witness :
    (extract_boot_files
        (some { profile := str "fedora", label := str "Fedora Remix LiveCD",
                source_type := str "iso", source_path := str "/home/u/f.iso" })
        { interface := str "eth0", server_ip := str "10.0.5.9",
          subnet := str "10.0.5.0", netmask := str "255.255.255.0",
          range_start := str "10.0.5.201", range_end := str "10.0.5.240",
          router := str "10.0.5.9", dns := str "10.0.5.9" }
        (str "/d") (str "/c") false true).2 = false ∧
    ∀ e ∈ (extract_boot_files
        (some { profile := str "fedora", label := str "Fedora Remix LiveCD",
                source_type := str "iso", source_path := str "/home/u/f.iso" })
        { interface := str "eth0", server_ip := str "10.0.5.9",
          subnet := str "10.0.5.0", netmask := str "255.255.255.0",
          range_start := str "10.0.5.201", range_end := str "10.0.5.240",
          router := str "10.0.5.9", dns := str "10.0.5.9" }
        (str "/d") (str "/c") false true).1, isExtractExec e = false := by
  exact (c5_extraction_protocol
    { profile := str "fedora", label := str "Fedora Remix LiveCD",
      source_type := str "iso", source_path := str "/home/u/f.iso" }
    { interface := str "eth0", server_ip := str "10.0.5.9",
      subnet := str "10.0.5.0", netmask := str "255.255.255.0",
      range_start := str "10.0.5.201", range_end := str "10.0.5.240",
      router := str "10.0.5.9", dns := str "10.0.5.9" }
    (str "/d") (str "/c") false true).2.2.1 rfl

/-! ## `pyReplace` lemmas (for Claims C6 and C2) -/

/-- A string without an occurrence of the pattern is left unchanged. -/
theorem pyReplaceF_no_occurrence (pat rep : List Char) :
    ∀ fuel s, s.length ≤ fuel → ¬ pat <:+: s → pyReplaceF pat rep fuel s = s := by
  intro fuel
  induction fuel with
  | zero =>
    intro s hs _
    cases s with
    | nil => rfl
    | cons c rest => simp at hs
  | succ f ih =>
    intro s hs hinf
    cases s with
    | nil => rfl
    | cons c rest =>
      by_cases hc : pat ≠ [] ∧ pat <+: (c :: rest)
      · exact absurd hc.2.isInfix hinf
      · simp only [pyReplaceF, if_neg hc]
        rw [ih rest (by simp at hs; omega) (fun h => hinf (List.infix_cons h))]

/-- Python `replace` on a string with no occurrence of the pattern. -/
theorem pyReplace_no_occurrence {pat s : List Char} (rep : List Char) (h : ¬ pat <:+: s) :
    pyReplace pat rep s = s :=
  pyReplaceF_no_occurrence pat rep s.length s (Nat.le_refl _) h

/-- Patterns of the shape `'.' :: t` with no further dot cannot overlap
themselves, so replacing such a pattern by nothing in `stem ++ pattern`
strips exactly the trailing occurrence when `stem` itself has none. -/
theorem pyReplaceF_strip_suffix (t : List Char) (ht : '.' ∉ t) :
    ∀ fuel stem, (stem ++ '.' :: t).length ≤ fuel → ¬ ('.' :: t) <:+: stem →
      pyReplaceF ('.' :: t) [] fuel (stem ++ '.' :: t) = stem := by
  intro fuel stem
  induction stem generalizing fuel with
  | nil =>
    intro hlen _
    cases fuel with
    | zero => simp at hlen
    | succ f =>
      have hpre : ('.' :: t) ≠ [] ∧ ('.' :: t) <+: ('.' :: t) :=
        ⟨by simp, List.prefix_refl _⟩
      simp only [List.nil_append, pyReplaceF, if_pos hpre, List.nil_append]
      rw [List.drop_length]
      cases f <;> rfl
  | cons c stem' ih =>
    intro hlen hinf
    cases fuel with
    | zero => simp [List.length_append] at hlen
    | succ f =>
      have hnp : ¬ (('.' :: t) <+: (c :: (stem' ++ '.' :: t))) := by
        intro hpre
        rw [List.cons_prefix_cons] at hpre
        obtain ⟨hc, htpre⟩ := hpre
        by_cases hlt : t.length ≤ stem'.length
        · have ht2 : t <+: stem' := by
            have h3 := List.prefix_iff_eq_take.mp htpre
            rw [List.take_append_of_le_length hlt] at h3
            rw [h3]
            exact List.take_prefix _ _
          exact hinf (by
            subst hc
            exact (List.cons_prefix_cons.mpr ⟨rfl, ht2⟩).isInfix)
        · have h3 := List.prefix_iff_eq_take.mp htpre
          rw [List.take_append_eq_append_take,
            List.take_of_length_le (by omega)] at h3
          have hk : ∃ k, t.length - stem'.length = k + 1 := ⟨t.length - stem'.length - 1, by omega⟩
          obtain ⟨k, hk⟩ := hk
          rw [hk] at h3
          have : '.' ∈ t := by
            rw [h3]
            simp
          exact ht this
      have hcond : ¬ (('.' :: t) ≠ [] ∧ ('.' :: t) <+: (c :: (stem' ++ '.' :: t))) :=
        fun h => hnp h.2
      simp only [List.cons_append, pyReplaceF, List.append_eq, if_neg hcond]
      rw [ih f (by simp [List.length_append] at hlen ⊢; omega)
        (fun h => hinf (List.infix_cons h))]

/-- Applying `pyReplace` with a dot-headed, dot-free-tailed pattern strips exactly
the final occurrence from `stem ++ pattern`. -/
theorem pyReplace_strip_suffix {t stem : List Char} (ht : '.' ∉ t)
    (h : ¬ ('.' :: t) <:+: stem) :
    pyReplace ('.' :: t) [] (stem ++ '.' :: t) = stem :=
  pyReplaceF_strip_suffix t ht _ stem (Nat.le_refl _) h

/-- A dot-headed pattern with a dot-free tail cannot occur across the
boundary of `xs ++ ys` when `ys` starts with a dot: any occurrence lies
fully inside `xs` or fully inside `ys`. -/
theorem not_infix_append_dot (t xs ys : List Char) (ht : '.' ∉ t)
    (hy : ys.head? = some '.') (h1 : ¬ ('.' :: t) <:+: xs)
    (h2 : ¬ ('.' :: t) <:+: ys) : ¬ ('.' :: t) <:+: (xs ++ ys) := by
  rintro ⟨pre, post, heq⟩
  by_cases hA : pre.length + ('.' :: t).length ≤ xs.length
  · apply h1
    have hx : xs = (xs ++ ys).take xs.length := (List.take_left xs ys).symm
    rw [← heq, List.take_append_eq_append_take,
      List.take_of_length_le (by simp [List.length_append] at hA ⊢; omega)] at hx
    exact ⟨pre, _, hx.symm⟩
  · by_cases hB : xs.length ≤ pre.length
    · apply h2
      have hys : ys = (xs ++ ys).drop xs.length := (List.drop_left xs ys).symm
      rw [← heq, List.append_assoc, List.drop_append_of_le_length hB] at hys
      exact ⟨pre.drop xs.length, post, by rw [hys, List.append_assoc]⟩
    · have hA' : xs.length < pre.length + t.length + 1 := by
        simp only [List.length_cons] at hA
        omega
      have hB' : pre.length < xs.length := by omega
      have e1 : (xs ++ ys)[xs.length]? = some '.' := by
        rw [List.getElem?_append_right (Nat.le_refl _), Nat.sub_self]
        cases ys with
        | nil => simp at hy
        | cons a u =>
          simp only [List.head?_cons, Option.some.injEq] at hy
          simp [hy]
      have e2 : (xs ++ ys)[xs.length]? = ('.' :: t)[xs.length - pre.length]? := by
        rw [← heq]
        rw [List.getElem?_append_left (by
          simp only [List.length_append, List.length_cons]
          omega)]
        rw [List.getElem?_append_right (by omega : pre.length ≤ xs.length)]
      have hj : ∃ j, xs.length - pre.length = j + 1 :=
        ⟨xs.length - pre.length - 1, by omega⟩
      obtain ⟨j, hj⟩ := hj
      rw [hj] at e2
      rw [e1] at e2
      simp only [List.getElem?_cons_succ] at e2
      have : '.' ∈ t := by
        have h4 := List.getElem?_eq_some_iff.mp e2.symm
        obtain ⟨hb, hval⟩ := h4
        rw [← hval]
        exact List.getElem_mem hb
      exact ht this

/-- Python `os.path.basename` of a path without a slash is the path itself. -/
theorem pyBasename_of_no_slash {p : List Char} (h : '/' ∉ p) : pyBasename p = p := by
  unfold pyBasename
  rw [List.takeWhile_eq_self_iff.mpr ?_, List.reverse_reverse]
  intro a ha
  rw [List.mem_reverse] at ha
  simp only [ne_eq, decide_eq_true_eq]
  intro hav
  exact h (hav ▸ ha)

/-! ## Claim C6 -/

/-- Claim C6 counterexample: `disk.Iso` exists as a file and is accepted
without any confirmation (the lowercased path ends in `.iso`), yet the
computed label keeps the mixed-case suffix `.Iso` instead of stripping
it: `replace('.iso','')`/`replace('.ISO','')` never matches `.Iso`. -/
theorem c6_counterexample :
    iso_needs_confirmation (str "disk.Iso") = false ∧
    select_iso_label (str "disk.Iso") = str "disk.Iso" ∧
    select_iso_label (str "disk.Iso") ≠ str "disk" := by
  decide

/-- Claim C6 amended: the label is the filename with every occurrence of
the exact strings `.iso` (first) and `.ISO` (second) removed; in
particular, for a filename `stem ++ ".iso"` or `stem ++ ".ISO"` whose stem
contains neither string, the label is `stem`, while differently-cased
suffixes such as `.Iso` are not removed. -/
theorem c6_iso_label_amended (stem : List Char) (hslash : '/' ∉ stem)
    (h1 : ¬ str ".iso" <:+: stem) (h2 : ¬ str ".ISO" <:+: stem) :
    select_iso_label (stem ++ str ".iso") = stem ∧
    select_iso_label (stem ++ str ".ISO") = stem ∧
    iso_needs_confirmation (stem ++ str ".iso") = false := by
  have hiso : str ".iso" = '.' :: str "iso" := rfl
  have hISO : str ".ISO" = '.' :: str "ISO" := rfl
  have hb1 : pyBasename (stem ++ str ".iso") = stem ++ str ".iso" :=
    pyBasename_of_no_slash (by
      intro hm
      rw [List.mem_append] at hm
      rcases hm with hm | hm
      · exact hslash hm
      · exact absurd hm (by decide))
  have hb2 : pyBasename (stem ++ str ".ISO") = stem ++ str ".ISO" :=
    pyBasename_of_no_slash (by
      intro hm
      rw [List.mem_append] at hm
      rcases hm with hm | hm
      · exact hslash hm
      · exact absurd hm (by decide))
  refine ⟨?_, ?_, ?_⟩
  · unfold select_iso_label
    rw [hb1, hiso, pyReplace_strip_suffix (by decide) (hiso ▸ h1)]
    exact pyReplace_no_occurrence [] h2
  · unfold select_iso_label
    rw [hb2]
    have hcross : ¬ str ".iso" <:+: (stem ++ str ".ISO") := by
      rw [hiso]
      exact not_infix_append_dot (str "iso") stem (str ".ISO") (by decide) (by decide)
        (hiso ▸ h1) (by decide)
    rw [pyReplace_no_occurrence [] hcross, hISO,
      pyReplace_strip_suffix (by decide) (hISO ▸ h2)]
  · unfold iso_needs_confirmation
    simp only [Bool.not_eq_false', decide_eq_true_eq]
    unfold pyLower
    rw [List.map_append]
    have : (str ".iso").map Char.toLower = str ".iso" := by decide
    rw [this]
    exact List.suffix_append _ _

/-- Claim C6 witness: the amended statement at the concrete stem
`Fedora-Remix`. -/
theorem c6_witness :
    select_iso_label (str "Fedora-Remix" ++ str ".iso") = str "Fedora-Remix" ∧
    select_iso_label (str "Fedora-Remix" ++ str ".ISO") = str "Fedora-Remix" ∧
    iso_needs_confirmation (str "Fedora-Remix" ++ str ".iso") = false :=
  c6_iso_label_amended (str "Fedora-Remix") (by decide) (by decide) (by decide)

/-! ## String lemmas for the env-file round trip (Claim C2) -/

/-- Python `split(sep)` never returns an empty field list. -/
theorem splitOnChar_ne_nil (sep : Char) (l : List Char) : splitOnChar sep l ≠ [] := by
  cases l with
  | nil => simp [splitOnChar]
  | cons c rest =>
    simp only [splitOnChar]
    cases splitOnChar sep rest with
    | nil => simp
    | cons hd tl => by_cases hc : c = sep <;> simp [hc]

/-- Python `split('\n')` peels a newline-free first segment. -/
theorem splitOnChar_append (sep : Char) (xs rest : List Char) (h : sep ∉ xs) :
    splitOnChar sep (xs ++ sep :: rest) = xs :: splitOnChar sep rest := by
  induction xs with
  | nil =>
    simp only [List.nil_append, splitOnChar]
    cases hsp : splitOnChar sep rest with
    | nil => exact absurd hsp (splitOnChar_ne_nil _ _)
    | cons hd tl => simp
  | cons c xs ih =>
    have hc : c ≠ sep := fun hcc => h (hcc ▸ List.mem_cons_self c xs)
    have hx : sep ∉ xs := fun hm => h (List.mem_cons_of_mem c hm)
    simp only [List.cons_append, splitOnChar, List.append_eq, ih hx, if_neg hc]

/-- Python `split('\n')` of a newline-free string is that single field. -/
theorem splitOnChar_no_sep (sep : Char) (xs : List Char) (h : sep ∉ xs) :
    splitOnChar sep xs = [xs] := by
  induction xs with
  | nil => rfl
  | cons c xs ih =>
    have hc : c ≠ sep := fun hcc => h (hcc ▸ List.mem_cons_self c xs)
    have hx : sep ∉ xs := fun hm => h (List.mem_cons_of_mem c hm)
    simp only [splitOnChar, ih hx, if_neg hc]

/-- Right-stripping keeps a kept tail segment intact. -/
theorem rdropWhileCh_append (p : Char → Bool) (xs ys : List Char)
    (h : rdropWhileCh p ys ≠ []) :
    rdropWhileCh p (xs ++ ys) = xs ++ rdropWhileCh p ys := by
  induction xs with
  | nil => rfl
  | cons c xs ih =>
    simp only [List.cons_append, rdropWhileCh, List.append_eq, ih]
    have hne : ¬ (xs ++ rdropWhileCh p ys = [] ∧ p c = true) := by
      intro hand
      rcases List.append_eq_nil.mp hand.1 with ⟨_, h2⟩
      exact h h2
    rw [if_neg hne]

/-- Right-stripping a two-character tail whose first character is kept. -/
theorem rdropWhileCh_pair (p : Char → Bool) (a b : Char) (ha : p a = false)
    (hb : p b = true) (xs : List Char) :
    rdropWhileCh p (xs ++ [a, b]) = xs ++ [a] := by
  induction xs with
  | nil => simp [rdropWhileCh, ha, hb]
  | cons c xs ih =>
    simp only [List.cons_append, rdropWhileCh, List.append_eq, ih]
    have hne : ¬ (xs ++ [a] = [] ∧ p c = true) := by
      intro hand
      rcases List.append_eq_nil.mp hand.1 with ⟨_, h2⟩
      exact absurd h2 (by simp)
    rw [if_neg hne]

/-- Right-stripping drops a final stripped character. -/
theorem rdropWhileCh_snoc_drop (p : Char → Bool) (b : Char) (hb : p b = true)
    (xs : List Char) : rdropWhileCh p (xs ++ [b]) = rdropWhileCh p xs := by
  induction xs with
  | nil => simp [rdropWhileCh, hb]
  | cons c xs ih => simp only [List.cons_append, rdropWhileCh, List.append_eq, ih]

/-- Right-stripping never grows the list. -/
theorem rdropWhileCh_length_le (p : Char → Bool) (l : List Char) :
    (rdropWhileCh p l).length ≤ l.length := by
  induction l with
  | nil => exact Nat.le_refl _
  | cons c rest ih =>
    simp only [rdropWhileCh]
    by_cases hc : rdropWhileCh p rest = [] ∧ p c = true
    · rw [if_pos hc]
      simp
    · rw [if_neg hc]
      simpa using ih

/-- Taking `takeWhile` up to the first separator of a separator-free prefix. -/
theorem takeWhile_until_sep (sep : Char) (k rest : List Char) (h : sep ∉ k) :
    (k ++ sep :: rest).takeWhile (fun c => c ≠ sep) = k := by
  induction k with
  | nil => simp [List.takeWhile_cons]
  | cons c k ih =>
    have hc : c ≠ sep := fun hcc => h (hcc ▸ List.mem_cons_self c k)
    have hk : sep ∉ k := fun hm => h (List.mem_cons_of_mem c hm)
    simpa [List.takeWhile_cons, hc] using ih hk

/-- Composing `dropWhile` then `drop 1` gives the remainder after the first separator. -/
theorem dropWhile_past_sep (sep : Char) (k rest : List Char) (h : sep ∉ k) :
    ((k ++ sep :: rest).dropWhile (fun c => c ≠ sep)).drop 1 = rest := by
  induction k with
  | nil => simp [List.dropWhile_cons]
  | cons c k ih =>
    have hc : c ≠ sep := fun hcc => h (hcc ▸ List.mem_cons_self c k)
    have hk : sep ∉ k := fun hm => h (List.mem_cons_of_mem c hm)
    simpa [List.dropWhile_cons, hc] using ih hk

/-- Stripping whitespace leaves a quote-delimited field alone. -/
theorem pyStrip_quoted (v : List Char) :
    pyStrip ('"' :: (v ++ ['"'])) = '"' :: (v ++ ['"']) := by
  unfold pyStrip
  rw [List.dropWhile_cons_of_neg (by decide)]
  have h : '"' :: (v ++ ['"']) = ('"' :: v) ++ ['"'] := by simp
  rw [h]
  have := rdropWhileCh_append Char.isWhitespace ('"' :: v) ['"'] (by decide)
  rw [this]
  simp [rdropWhileCh]

/-- Stripping the surrounding quotes recovers a value that itself has no
leading/trailing quote. -/
theorem pyStripChar_quoted (v : List Char) (hv : pyStripChar '"' v = v) :
    pyStripChar '"' ('"' :: (v ++ ['"'])) = v := by
  unfold pyStripChar
  rw [List.dropWhile_cons_of_pos (by decide)]
  cases v with
  | nil => simp [rdropWhileCh]
  | cons c v' =>
    have hc : c ≠ '"' := by
      intro hcq
      subst hcq
      have hlen : (pyStripChar '"' ('"' :: v')).length ≤ v'.length := by
        unfold pyStripChar
        calc (rdropWhileCh (fun x => x = '"') (('"' :: v').dropWhile (fun x => x = '"'))).length
            ≤ (('"' :: v').dropWhile (fun x => x = '"')).length :=
              rdropWhileCh_length_le _ _
          _ ≤ v'.length := by
              rw [List.dropWhile_cons_of_pos (by decide)]
              exact (List.dropWhile_sublist _).length_le
      rw [hv] at hlen
      simp at hlen
    rw [List.cons_append, List.dropWhile_cons_of_neg (by simp [hc])]
    have h2 : c :: (v' ++ ['"']) = (c :: v') ++ ['"'] := by simp
    rw [h2, rdropWhileCh_snoc_drop _ '"' (by decide) (c :: v')]
    unfold pyStripChar at hv
    rw [List.dropWhile_cons_of_neg (by simp [hc])] at hv
    exact hv

/-- Stripping the comment-headed env file: drop exactly the final
newline. -/
theorem pyStrip_hash_quote_nl (xs : List Char) :
    pyStrip (('#' :: xs) ++ ['"', '\n']) = ('#' :: xs) ++ ['"'] := by
  unfold pyStrip
  rw [List.cons_append, List.dropWhile_cons_of_neg (by decide), ← List.cons_append,
    rdropWhileCh_pair _ '"' '\n' (by decide) (by decide)]

/-- An env line with newline-free key and value contains no newline. -/
theorem env_line_no_newline {k v : List Char} (hk : '\n' ∉ k) (hv : '\n' ∉ v) :
    '\n' ∉ env_line k v := by
  unfold env_line
  intro hm
  simp only [List.append_assoc, List.mem_append] at hm
  rcases hm with hm | hm | hm | hm
  · exact hk hm
  · exact absurd hm (by decide)
  · exact hv hm
  · exact absurd hm (by decide)

/-- How the parsing loop consumes one well-formed `KEY="value"` line. -/
theorem parse_env_line_entry (acc : List (List Char × List Char)) (k v : List Char)
    (hne : k ≠ []) (hhead : k.head? ≠ some '#') (hkeq : '=' ∉ k)
    (hv : pyStripChar '"' v = v) :
    parse_env_line acc (env_line k v) =
      (pyLower (pyReplace (str "PXE_") [] (pyStrip k)), v) :: acc := by
  have hline : env_line k v = k ++ '=' :: ('"' :: (v ++ ['"'])) := by
    unfold env_line
    have s1 : str "=\"" = ['=', '"'] := rfl
    have s2 : str "\"" = ['"'] := rfl
    rw [s1, s2]
    simp [List.append_assoc]
  have hmem : '=' ∈ env_line k v := by
    rw [hline]
    exact List.mem_append_right k (List.mem_cons_self _ _)
  have hpre : ¬ ['#'] <+: env_line k v := by
    rw [hline]
    cases k with
    | nil => exact absurd rfl hne
    | cons c0 k' =>
      intro hp
      rw [List.cons_append, List.cons_prefix_cons] at hp
      apply hhead
      rw [List.head?_cons, hp.1]
  unfold parse_env_line
  rw [if_pos ⟨hmem, hpre⟩]
  unfold splitOnceChar
  rw [hline, takeWhile_until_sep '=' k _ hkeq, dropWhile_past_sep '=' k _ hkeq]
  show (pyLower (pyReplace (str "PXE_") [] (pyStrip k)),
      pyStripChar '"' (pyStrip ('"' :: (v ++ ['"'])))) :: acc = _
  rw [pyStrip_quoted v, pyStripChar_quoted v hv]

/-- A separator-joined list of lines is non-empty when the lines end in a
non-empty line. -/
theorem joinNl1_ne_nil (ls : List (List Char)) (last : List Char)
    (hlast : last ≠ []) : joinNl1 (ls ++ [last]) ≠ [] := by
  cases ls with
  | nil => exact hlast
  | cons l rest =>
    cases h : rest ++ [last] with
    | nil => simp at h
    | cons x xs =>
      show joinNl1 (l :: (rest ++ [last])) ≠ []
      rw [h]
      show l ++ '\n' :: joinNl1 (x :: xs) ≠ []
      simp

/-- Right whitespace-stripping removes exactly the trailing newline of a
newline-joined line list whose last line is non-empty and keeps its own
trailing characters. -/
theorem rstrip_joinNl (last : List Char) (hne : last ≠ [])
    (hkeep : rdropWhileCh Char.isWhitespace last = last) :
    ∀ ls, rdropWhileCh Char.isWhitespace (joinNl (ls ++ [last]))
      = joinNl1 (ls ++ [last]) := by
  intro ls
  induction ls with
  | nil =>
    show rdropWhileCh Char.isWhitespace (last ++ '\n' :: joinNl []) = last
    show rdropWhileCh Char.isWhitespace (last ++ ['\n']) = last
    rw [rdropWhileCh_snoc_drop _ '\n' (by decide), hkeep]
  | cons l rest ih =>
    show rdropWhileCh Char.isWhitespace (l ++ '\n' :: joinNl (rest ++ [last]))
      = joinNl1 (l :: (rest ++ [last]))
    have hrest : rdropWhileCh Char.isWhitespace ('\n' :: joinNl (rest ++ [last]))
        = '\n' :: joinNl1 (rest ++ [last]) := by
      show (if rdropWhileCh Char.isWhitespace (joinNl (rest ++ [last])) = [] ∧
          Char.isWhitespace '\n' = true then []
        else '\n' :: rdropWhileCh Char.isWhitespace (joinNl (rest ++ [last])))
        = '\n' :: joinNl1 (rest ++ [last])
      rw [ih]
      rw [if_neg (fun hand => joinNl1_ne_nil rest last hne hand.1)]
    rw [rdropWhileCh_append _ _ _ (by rw [hrest]; simp), hrest]
    cases h : rest ++ [last] with
    | nil => simp at h
    | cons x xs => rfl

/-- Splitting a separator-joined list of separator-free lines recovers
the lines. -/
theorem splitOnChar_joinNl1 (ls : List (List Char)) (hne : ls ≠ [])
    (hnl : ∀ l ∈ ls, '\n' ∉ l) :
    splitOnChar '\n' (joinNl1 ls) = ls := by
  induction ls with
  | nil => exact absurd rfl hne
  | cons l rest ih =>
    cases rest with
    | nil =>
      show splitOnChar '\n' l = [l]
      exact splitOnChar_no_sep _ _ (hnl l (List.mem_cons_self _ _))
    | cons l2 rest2 =>
      show splitOnChar '\n' (l ++ '\n' :: joinNl1 (l2 :: rest2)) = l :: l2 :: rest2
      rw [splitOnChar_append _ _ _ (hnl l (List.mem_cons_self _ _))]
      rw [ih (by simp) (fun x hx => hnl x (List.mem_cons_of_mem l hx))]

/-- An env line ends in a quote, so right-stripping keeps it whole. -/
theorem rstrip_env_line (k v : List Char) :
    rdropWhileCh Char.isWhitespace (env_line k v) = env_line k v := by
  unfold env_line
  rw [show str "\"" = ['"'] from rfl]
  have hsh : k ++ str "=\"" ++ v ++ ['"'] = (k ++ str "=\"" ++ v) ++ ['"'] := by
    simp [List.append_assoc]
  rw [hsh, rdropWhileCh_append _ _ _ (by decide)]
  rfl

/-- An env line is never empty. -/
theorem env_line_ne_nil (k v : List Char) : env_line k v ≠ [] := by
  unfold env_line
  simp [str]

/-- Reading the env file back: `strip` removes exactly the final newline
and `split('\n')` recovers the comment line and the eight entry lines. -/
theorem env_content_lines (cfg : Config)
    (h1 : '\n' ∉ cfg.interface) (h2 : '\n' ∉ cfg.server_ip)
    (h3 : '\n' ∉ cfg.subnet) (h4 : '\n' ∉ cfg.netmask)
    (h5 : '\n' ∉ cfg.router) (h6 : '\n' ∉ cfg.dns)
    (h7 : '\n' ∉ cfg.range_start) (h8 : '\n' ∉ cfg.range_end) :
    splitOnChar '\n' (pyStrip (env_content cfg)) =
      [str "# PXE Server Configuration",
       env_line (str "PXE_INTERFACE") cfg.interface,
       env_line (str "PXE_SERVER_IP") cfg.server_ip,
       env_line (str "PXE_SUBNET") cfg.subnet,
       env_line (str "PXE_NETMASK") cfg.netmask,
       env_line (str "PXE_ROUTER") cfg.router,
       env_line (str "PXE_DNS") cfg.dns,
       env_line (str "PXE_RANGE_START") cfg.range_start,
       env_line (str "PXE_RANGE_END") cfg.range_end] := by
  have hjoin : env_content cfg = joinNl
      ([str "# PXE Server Configuration",
        env_line (str "PXE_INTERFACE") cfg.interface,
        env_line (str "PXE_SERVER_IP") cfg.server_ip,
        env_line (str "PXE_SUBNET") cfg.subnet,
        env_line (str "PXE_NETMASK") cfg.netmask,
        env_line (str "PXE_ROUTER") cfg.router,
        env_line (str "PXE_DNS") cfg.dns,
        env_line (str "PXE_RANGE_START") cfg.range_start] ++
       [env_line (str "PXE_RANGE_END") cfg.range_end]) := rfl
  have hld : (env_content cfg).dropWhile Char.isWhitespace = env_content cfg := by
    unfold env_content
    rw [show str "# PXE Server Configuration"
      = '#' :: str " PXE Server Configuration" from rfl]
    rw [List.cons_append, List.dropWhile_cons_of_neg (by decide)]
  have hnl : ∀ l ∈ ([str "# PXE Server Configuration",
        env_line (str "PXE_INTERFACE") cfg.interface,
        env_line (str "PXE_SERVER_IP") cfg.server_ip,
        env_line (str "PXE_SUBNET") cfg.subnet,
        env_line (str "PXE_NETMASK") cfg.netmask,
        env_line (str "PXE_ROUTER") cfg.router,
        env_line (str "PXE_DNS") cfg.dns,
        env_line (str "PXE_RANGE_START") cfg.range_start] ++
       [env_line (str "PXE_RANGE_END") cfg.range_end]), '\n' ∉ l := by
    intro l hl
    simp only [List.mem_append, List.mem_cons, List.not_mem_nil, or_false] at hl
    rcases hl with (hl | hl | hl | hl | hl | hl | hl | hl) | hl
    · subst hl; decide
    · subst hl; exact env_line_no_newline (by decide) h1
    · subst hl; exact env_line_no_newline (by decide) h2
    · subst hl; exact env_line_no_newline (by decide) h3
    · subst hl; exact env_line_no_newline (by decide) h4
    · subst hl; exact env_line_no_newline (by decide) h5
    · subst hl; exact env_line_no_newline (by decide) h6
    · subst hl; exact env_line_no_newline (by decide) h7
    · subst hl; exact env_line_no_newline (by decide) h8
  unfold pyStrip
  rw [hld, hjoin,
    rstrip_joinNl _ (env_line_ne_nil _ _) (rstrip_env_line _ _) _,
    splitOnChar_joinNl1 _ (by simp) hnl]
  simp

/-! ## Claim C2 -/

/-- Claim C2 counterexample: saving two well-formed configurations that
differ only in `subnet` produces env files the loader cannot tell apart —
the `--status` loader maps back only four of the eight keys — so loading
back cannot reconstruct the full saved configuration. -/
theorem c2_counterexample :
    load_config (env_content
      { interface := str "eth0", server_ip := str "10.0.5.9",
        subnet := str "10.0.5.0", netmask := str "255.255.255.0",
        range_start := str "10.0.5.201", range_end := str "10.0.5.240",
        router := str "10.0.5.9", dns := str "10.0.5.9" }) =
    load_config (env_content
      { interface := str "eth0", server_ip := str "10.0.5.9",
        subnet := str "99.99.99.0", netmask := str "255.255.255.0",
        range_start := str "10.0.5.201", range_end := str "10.0.5.240",
        router := str "10.0.5.9", dns := str "10.0.5.9" }) ∧
    ({ interface := str "eth0", server_ip := str "10.0.5.9",
       subnet := str "10.0.5.0", netmask := str "255.255.255.0",
       range_start := str "10.0.5.201", range_end := str "10.0.5.240",
       router := str "10.0.5.9", dns := str "10.0.5.9" } : Config) ≠
    { interface := str "eth0", server_ip := str "10.0.5.9",
      subnet := str "99.99.99.0", netmask := str "255.255.255.0",
      range_start := str "10.0.5.201", range_end := str "10.0.5.240",
      router := str "10.0.5.9", dns := str "10.0.5.9" } := by
  constructor
  · rfl
  · decide

/-- Claim C2 amended: for a well-formed configuration the save/load round
trip reconstructs exactly the four fields the loader maps back —
`interface`, `server_ip`, `range_start`, `range_end`; `subnet`,
`netmask`, `router` and `dns` are written to the file but dropped on
load. -/
theorem c2_roundtrip_amended (cfg : Config)
    (hi : env_value_ok cfg.interface) (hsip : env_value_ok cfg.server_ip)
    (hsub : env_value_ok cfg.subnet) (hnm : env_value_ok cfg.netmask)
    (hro : env_value_ok cfg.router) (hdns : env_value_ok cfg.dns)
    (hrs : env_value_ok cfg.range_start) (hre : env_value_ok cfg.range_end) :
    load_config (env_content cfg) =
      { interface := cfg.interface, server_ip := cfg.server_ip,
        range_start := cfg.range_start, range_end := cfg.range_end } := by
  unfold load_config
  rw [env_content_lines cfg hi.1 hsip.1 hsub.1 hnm.1 hro.1 hdns.1 hrs.1 hre.1]
  have hc : parse_env_line [] (str "# PXE Server Configuration") = [] := by decide
  simp only [List.foldl_cons, List.foldl_nil]
  rw [hc,
    parse_env_line_entry _ _ _ (by decide) (by decide) (by decide) hi.2.2,
    parse_env_line_entry _ _ _ (by decide) (by decide) (by decide) hsip.2.2,
    parse_env_line_entry _ _ _ (by decide) (by decide) (by decide) hsub.2.2,
    parse_env_line_entry _ _ _ (by decide) (by decide) (by decide) hnm.2.2,
    parse_env_line_entry _ _ _ (by decide) (by decide) (by decide) hro.2.2,
    parse_env_line_entry _ _ _ (by decide) (by decide) (by decide) hdns.2.2,
    parse_env_line_entry _ _ _ (by decide) (by decide) (by decide) hrs.2.2,
    parse_env_line_entry _ _ _ (by decide) (by decide) (by decide) hre.2.2]
  rw [show pyLower (pyReplace (str "PXE_") [] (pyStrip (str "PXE_INTERFACE")))
      = str "interface" from by decide,
    show pyLower (pyReplace (str "PXE_") [] (pyStrip (str "PXE_SERVER_IP")))
      = str "server_ip" from by decide,
    show pyLower (pyReplace (str "PXE_") [] (pyStrip (str "PXE_SUBNET")))
      = str "subnet" from by decide,
    show pyLower (pyReplace (str "PXE_") [] (pyStrip (str "PXE_NETMASK")))
      = str "netmask" from by decide,
    show pyLower (pyReplace (str "PXE_") [] (pyStrip (str "PXE_ROUTER")))
      = str "router" from by decide,
    show pyLower (pyReplace (str "PXE_") [] (pyStrip (str "PXE_DNS")))
      = str "dns" from by decide,
    show pyLower (pyReplace (str "PXE_") [] (pyStrip (str "PXE_RANGE_START")))
      = str "range_start" from by decide,
    show pyLower (pyReplace (str "PXE_") [] (pyStrip (str "PXE_RANGE_END")))
      = str "range_end" from by decide]
  simp +decide [dict_get]

/-- Claim C2 witness: the amended round trip at a concrete
configuration. -/
theorem c2_witness :
    load_config (env_content
      { interface := str "enp5s0", server_ip := str "172.16.9.1",
        subnet := str "172.16.9.0", netmask := str "255.255.255.0",
        range_start := str "172.16.9.201", range_end := str "172.16.9.240",
        router := str "172.16.9.1", dns := str "172.16.9.1" }) =
      { interface := str "enp5s0", server_ip := str "172.16.9.1",
        range_start := str "172.16.9.201", range_end := str "172.16.9.240" } :=
  c2_roundtrip_amended
    { interface := str "enp5s0", server_ip := str "172.16.9.1",
      subnet := str "172.16.9.0", netmask := str "255.255.255.0",
      range_start := str "172.16.9.201", range_end := str "172.16.9.240",
      router := str "172.16.9.1", dns := str "172.16.9.1" }
    (by decide) (by decide) (by decide) (by decide)
    (by decide) (by decide) (by decide) (by decide)

/-! ## USB discovery lemmas (Claims C4 and C10) -/

theorem fsExists_iff (fs : FS) (p : List (List Char)) :
    fsExists fs p = true ↔ ∃ e ∈ fs.entries, e.path = p := by
  simp [fsExists, List.any_eq_true]

theorem fsIsDir_iff (fs : FS) (p : List (List Char)) :
    fsIsDir fs p = true ↔ ∃ e ∈ fs.entries, e.path = p ∧ e.isDir = true := by
  simp [fsIsDir, List.any_eq_true]

theorem fsExists_of_isDir {fs : FS} {p : List (List Char)}
    (h : fsIsDir fs p = true) : fsExists fs p = true := by
  rw [fsIsDir_iff] at h
  rw [fsExists_iff]
  obtain ⟨e, he, hp, _⟩ := h
  exact ⟨e, he, hp⟩

theorem mem_childPaths (fs : FS) (p q : List (List Char)) :
    q ∈ childPaths fs p ↔
      (∃ e ∈ fs.entries, e.path = q) ∧ q.take p.length = p ∧
        q.length = p.length + 1 := by
  unfold childPaths
  rw [List.mem_filterMap]
  constructor
  · rintro ⟨e, he, hif⟩
    by_cases hc : e.path.take p.length = p ∧ e.path.length = p.length + 1
    · rw [if_pos hc] at hif
      injection hif with hif
      subst hif
      exact ⟨⟨e, he, rfl⟩, hc⟩
    · rw [if_neg hc] at hif
      cases hif
  · rintro ⟨⟨e, he, hep⟩, hc1, hc2⟩
    refine ⟨e, he, ?_⟩
    subst hep
    rw [if_pos ⟨hc1, hc2⟩]

theorem wf_take_isDir {fs : FS} (hwf : fsWF fs) {p : List (List Char)}
    (hex : fsExists fs p = true) {k : Nat} (h1 : 0 < k) (h2 : k < p.length) :
    fsIsDir fs (p.take k) = true := by
  rw [fsExists_iff] at hex
  obtain ⟨e, he, hep⟩ := hex
  have h := hwf e he k (by rw [hep]; exact h2) h1
  rwa [hep] at h

/-- The element at a position, read off as the name of the truncated
path. -/
theorem pathName_take {m : List (List Char)} {n : Nat} (h : n < m.length) :
    m[n]? = some (pathName (m.take (n + 1))) := by
  unfold pathName
  rw [List.getLast?_eq_getElem?, List.length_take]
  have hmin : min (n + 1) m.length = n + 1 := by omega
  rw [hmin]
  simp only [Nat.add_sub_cancel]
  rw [List.getElem?_take, if_pos (Nat.lt_succ_self n)]
  cases hx : m[n]? with
  | none =>
    rw [List.getElem?_eq_none_iff] at hx
    omega
  | some x => rfl

/-- The full characterisation of `find_usb_drives`: a directory is
returned exactly when its `LiveOS/squashfs.img` marker exists and it sits
one level below a mount root, or two levels below with a first-level
parent not named `root`. -/
theorem mem_find_usb_drives_iff (fs : FS) (hwf : fsWF fs) (m : List (List Char)) :
    (∃ d ∈ find_usb_drives fs, d.path = m) ↔
      (fsExists fs (squashfs_marker m) = true ∧
       ∃ root ∈ mount_locations, root <+: m ∧
         (m.length = root.length + 1 ∨
          (m.length = root.length + 2 ∧ m[root.length]? ≠ some (str "root")))) := by
  constructor
  · rintro ⟨d, hd, hdm⟩
    unfold find_usb_drives at hd
    rw [List.mem_flatMap] at hd
    obtain ⟨base, hbase, hd⟩ := hd
    by_cases hbe : fsExists fs base = true
    · rw [if_pos hbe, List.mem_flatMap] at hd
      obtain ⟨ud, hud, hd⟩ := hd
      by_cases hudd : fsIsDir fs ud = true
      · rw [if_pos hudd, List.mem_filterMap] at hd
        obtain ⟨mount, hmount, hg⟩ := hd
        by_cases hmd : fsIsDir fs mount = true
        · rw [if_pos hmd] at hg
          by_cases hmk : fsExists fs (squashfs_marker mount) = true
          · rw [if_pos hmk] at hg
            injection hg with hg
            have hpm : mount = m := by rw [← hdm, ← hg]
            subst hpm
            obtain ⟨⟨eu, heu, heup⟩, hut, hul⟩ := (mem_childPaths fs base ud).mp hud
            rcases List.mem_cons.mp hmount with hm1 | hm2
            · subst hm1
              exact ⟨hmk, base, hbase, List.prefix_iff_eq_take.mpr hut.symm,
                Or.inl hul⟩
            · by_cases hnr : pathName ud ≠ str "root"
              · rw [if_pos hnr, if_pos hudd] at hm2
                obtain ⟨⟨em, hem, hemp⟩, hmt, hml⟩ := (mem_childPaths fs ud mount).mp hm2
                have hmlen2 : mount.length = base.length + 2 := by omega
                have hpre : base <+: mount := by
                  rw [List.prefix_iff_eq_take]
                  rw [← hmt] at hut
                  rw [List.take_take] at hut
                  have : min base.length ud.length = base.length := by omega
                  rw [this] at hut
                  exact hut.symm
                refine ⟨hmk, base, hbase, hpre, Or.inr ⟨hmlen2, ?_⟩⟩
                have hidx : mount[base.length]? =
                    some (pathName (mount.take (base.length + 1))) :=
                  pathName_take (by omega)
                have hudtake : mount.take (base.length + 1) = ud := by
                  rw [← hul]
                  exact hmt
                rw [hudtake] at hidx
                rw [hidx]
                intro hsome
                injection hsome with hsome
                exact hnr hsome
              · rw [if_neg hnr] at hm2
                cases hm2
          · rw [if_neg hmk] at hg
            cases hg
        · rw [if_neg hmd] at hg
          cases hg
      · rw [if_neg hudd] at hd
        cases hd
    · rw [if_neg hbe] at hd
      cases hd
  · rintro ⟨hmk, root, hroot, hpre, hcase⟩
    have hrne : root ≠ [] := by
      have h3 : root = [str "run", str "media"] ∨ root = [str "media"] ∨
          root = [str "mnt"] := by simpa [mount_locations] using hroot
      rcases h3 with rfl | rfl | rfl <;> simp
    have hrlen : 0 < root.length := List.length_pos.mpr hrne
    have hrtake : root = m.take root.length := List.prefix_iff_eq_take.mp hpre
    have hmlen : root.length < m.length := by rcases hcase with h | ⟨h, _⟩ <;> omega
    have hmark_take : ∀ k, k ≤ m.length → (squashfs_marker m).take k = m.take k := by
      intro k hk
      unfold squashfs_marker
      rw [List.take_append_of_le_length hk]
    have hisdir : ∀ k, 0 < k → k ≤ m.length → fsIsDir fs (m.take k) = true := by
      intro k h1 h2
      have h4 := wf_take_isDir hwf hmk (k := k) h1
        (by simp [squashfs_marker]; omega)
      rwa [hmark_take k h2] at h4
    have hmdir : fsIsDir fs m = true := by
      have h5 := hisdir m.length (by omega) (Nat.le_refl _)
      rwa [List.take_length] at h5
    have hmentry : ∃ e ∈ fs.entries, e.path = m := by
      rw [fsIsDir_iff] at hmdir
      obtain ⟨e, he, hp, _⟩ := hmdir
      exact ⟨e, he, hp⟩
    have hmdir2 : fsIsDir fs m = true := by
      have h5 := hisdir m.length (by omega) (Nat.le_refl _)
      rwa [List.take_length] at h5
    have hbase_exists : fsExists fs root = true := by
      have h6 := hisdir root.length hrlen (by omega)
      rw [← hrtake] at h6
      exact fsExists_of_isDir h6
    refine ⟨⟨m, pathName m, fileSize fs (squashfs_marker m)⟩, ?_, rfl⟩
    unfold find_usb_drives
    rw [List.mem_flatMap]
    refine ⟨root, hroot, ?_⟩
    rw [if_pos hbase_exists, List.mem_flatMap]
    rcases hcase with hlen1 | ⟨hlen2, hname⟩
    · refine ⟨m, (mem_childPaths fs root m).mpr ⟨hmentry, hrtake.symm, hlen1⟩, ?_⟩
      rw [if_pos hmdir2, List.mem_filterMap]
      refine ⟨m, List.mem_cons_self _ _, ?_⟩
      rw [if_pos hmdir2, if_pos hmk]
    · have hudlen : (m.take (root.length + 1)).length = root.length + 1 := by
        rw [List.length_take]
        omega
      have hud_isdir : fsIsDir fs (m.take (root.length + 1)) = true :=
        hisdir (root.length + 1) (by omega) (by omega)
      have hud_entry : ∃ e ∈ fs.entries, e.path = m.take (root.length + 1) := by
        rw [fsIsDir_iff] at hud_isdir
        obtain ⟨e, he, hp, _⟩ := hud_isdir
        exact ⟨e, he, hp⟩
      have hud_isdir2 : fsIsDir fs (m.take (root.length + 1)) = true :=
        hisdir (root.length + 1) (by omega) (by omega)
      refine ⟨m.take (root.length + 1), (mem_childPaths fs root _).mpr
        ⟨hud_entry, ?_, hudlen⟩, ?_⟩
      · rw [List.take_take]
        have : min root.length (root.length + 1) = root.length := by omega
        rw [this]
        exact hrtake.symm
      rw [if_pos hud_isdir2, List.mem_filterMap]
      have hnr : pathName (m.take (root.length + 1)) ≠ str "root" := by
        intro hname2
        apply hname
        rw [pathName_take (show root.length < m.length by omega), hname2]
      refine ⟨m, ?_, ?_⟩
      · apply List.mem_cons_of_mem
        rw [if_pos hnr, if_pos hud_isdir2]
        refine (mem_childPaths fs _ m).mpr ⟨hmentry, ?_, ?_⟩
        · rw [hudlen]
        · omega
      · rw [if_pos hmdir2, if_pos hmk]

/-- The three mount roots are pairwise prefix-incomparable. -/
theorem mount_locations_antichain :
    ∀ r ∈ mount_locations, ∀ r2 ∈ mount_locations, r <+: r2 → r = r2 := by
  decide

/-! ## Claim C4 -/

/-- Claim C4 counterexample: a directory two levels below `/run/media`
whose marker file exists is nevertheless not returned, because its
first-level parent is named `root` — refuting the claimed
"if and only if". -/
theorem c4_counterexample :
    fsWF fsRootShadow ∧
    fsExists fsRootShadow
      (squashfs_marker [str "run", str "media", str "root", str "usb2"]) = true ∧
    [str "run", str "media"] ∈ mount_locations ∧
    [str "run", str "media"] <+: [str "run", str "media", str "root", str "usb2"] ∧
    [str "run", str "media", str "root", str "usb2"].length
      = [str "run", str "media"].length + 2 ∧
    ¬ ∃ d ∈ find_usb_drives fsRootShadow,
        d.path = [str "run", str "media", str "root", str "usb2"] := by
  decide

/-- Claim C4 amended: on a well-formed filesystem, USB discovery returns
a directory `m` exactly when `m/LiveOS/squashfs.img` exists and `m` lies
one directory level beneath one of `/run/media`, `/media`, `/mnt`, or two
levels beneath one of them with a first-level parent not named
`root`. -/
theorem c4_usb_discovery_amended (fs : FS) (hwf : fsWF fs) (m : List (List Char)) :
    (∃ d ∈ find_usb_drives fs, d.path = m) ↔
      (fsExists fs (squashfs_marker m) = true ∧
       ∃ root ∈ mount_locations, root <+: m ∧
         (m.length = root.length + 1 ∨
          (m.length = root.length + 2 ∧ m[root.length]? ≠ some (str "root")))) :=
  mem_find_usb_drives_iff fs hwf m

/-- Claim C4 witness: both directions of the amended equivalence at a
concrete filesystem: the level-one mount is returned, and so is the
level-two mount under the non-`root` user directory. -/
theorem c4_witness :
    (∃ d ∈ find_usb_drives fsSample, d.path = [str "run", str "media", str "liveusb"]) ∧
    (∃ d ∈ find_usb_drives fsSample,
        d.path = [str "run", str "media", str "bob", str "usb1"]) := by
  constructor
  · exact (c4_usb_discovery_amended fsSample (by decide) _).mpr (by decide)
  · exact (c4_usb_discovery_amended fsSample (by decide) _).mpr (by decide)

/-! ## Claim C10 -/

/-- Claim C10: USB discovery never returns a directory two levels deep
whose first-level parent is named `root`, while `/run/media/root` itself
(one level deep) is returned when it carries the marker. -/
theorem c10_root_user_dir (fs : FS) (hwf : fsWF fs) :
    (∀ d ∈ find_usb_drives fs, ∀ root ∈ mount_locations,
       ¬ (root ++ [str "root"] <+: d.path ∧ d.path.length = root.length + 2)) ∧
    (fsExists fs (squashfs_marker [str "run", str "media", str "root"]) = true →
       ∃ d ∈ find_usb_drives fs, d.path = [str "run", str "media", str "root"]) := by
  constructor
  · rintro d hd root hroot ⟨hp, hlen⟩
    obtain ⟨hmk, root2, hroot2, hpre2, hcase2⟩ :=
      (mem_find_usb_drives_iff fs hwf d.path).mp ⟨d, hd, rfl⟩
    have hrp : root <+: d.path :=
      (List.prefix_append root [str "root"]).trans hp
    have hr12 : root2 = root := by
      rcases List.prefix_or_prefix_of_prefix hpre2 hrp with h | h
      · exact mount_locations_antichain root2 hroot2 root hroot h
      · exact (mount_locations_antichain root hroot root2 hroot2 h).symm
    subst hr12
    obtain ⟨t, ht⟩ := hp
    have hidx : d.path[root2.length]? = some (str "root") := by
      rw [← ht, List.append_assoc, List.getElem?_append_right (Nat.le_refl _),
        Nat.sub_self, List.cons_append, List.getElem?_cons_zero]
    rcases hcase2 with h | ⟨_, hname⟩
    · omega
    · exact hname hidx
  · intro hmk
    exact (mem_find_usb_drives_iff fs hwf _).mpr
      ⟨hmk, [str "run", str "media"], by decide, by decide, Or.inl (by decide)⟩

/-- Claim C10 witness: on a concrete filesystem whose only marker sits at
`/run/media/root/LiveOS/squashfs.img`, the mount `/run/media/root` is
returned and no returned path descends through a `root` first-level
directory. -/
theorem c10_witness :
    (∀ d ∈ find_usb_drives fsRootMount, ∀ root ∈ mount_locations,
       ¬ (root ++ [str "root"] <+: d.path ∧ d.path.length = root.length + 2)) ∧
    (∃ d ∈ find_usb_drives fsRootMount, d.path = [str "run", str "media", str "root"]) := by
  have h := c10_root_user_dir fsRootMount (by decide)
  exact ⟨h.1, h.2 (by decide)⟩

end PxeServer

